import Mathlib

/-!
Shallow embedding of the gemini-groq-rag-v3 core pipeline, together with
theorems checking the natural-language specification against the code.

Sources embedded:
* `src/src/lib/groq.js`     — `createBatches` (multi-page vision batcher)
* `src/unnamed/part_001`    — `withRetry` (embedding client retry policy)
* `src/unnamed/part_000`    — `chunkTextSemantic`, `chunkLongSentence`,
                              `cosineSimilarity`, `searchChunks`, `deleteDocument`
* `src/src/lib/ocr.js`      — `detectImageBasedPDF`, `hybridParsePDF`
* `src/src/App.jsx`         — `handleSendMessage` (conversational orchestrator)

JavaScript numbers are modelled as `ℚ` where the code only adds, divides and
compares (batch sizes, text densities), and as `ℝ` where a square root is
involved (cosine similarity).  Strings are Lean `String`s.
-/

namespace RagV3

/-! ## Multi-Page Vision Batcher (`src/src/lib/groq.js`, `createBatches`) -/

/-- A page image as consumed by `createBatches`.  The code only reads
`img.base64?.length`, so the payload is modelled by its length in bytes
(`base64Len = 0` models an absent `base64` field, matching `|| 0`). -/
structure PageImage where
  pageNum : ℕ
  base64Len : ℕ
  deriving DecidableEq, Repr

/-- `(img.base64?.length || 0) / 1024 / 1024` — per-image size in MB. -/
def imgSizeMB (img : PageImage) : ℚ := (img.base64Len : ℚ) / 1024 / 1024

/-- Total base64 payload of a batch, in MB. -/
def batchSizeMB (batch : List PageImage) : ℚ :=
  (batch.map imgSizeMB).sum

/-- Loop body state of `createBatches`: already closed batches, the current
batch being filled, and its accumulated size. -/
def createBatchesGo (maxSizeMB : ℚ) (maxImages : ℕ) :
    List PageImage → List (List PageImage) → List PageImage → ℚ →
    List (List PageImage)
  | [], batches, currentBatch, _ =>
      -- `if (currentBatch.length > 0) batches.push(currentBatch)`
      if currentBatch.length > 0 then batches ++ [currentBatch] else batches
  | img :: rest, batches, currentBatch, currentSize =>
      let imgSize := imgSizeMB img
      let wouldExceedSize := currentSize + imgSize > maxSizeMB ∧ currentBatch.length > 0
      let wouldExceedCount := currentBatch.length ≥ maxImages
      if wouldExceedSize ∨ wouldExceedCount then
        createBatchesGo maxSizeMB maxImages rest (batches ++ [currentBatch]) [img] imgSize
      else
        createBatchesGo maxSizeMB maxImages rest batches (currentBatch ++ [img])
          (currentSize + imgSize)

/-- `createBatches(images, maxSizeMB = 3.0, maxImages = 5)` from
`src/src/lib/groq.js`. -/
def createBatches (images : List PageImage) (maxSizeMB : ℚ := 3)
    (maxImages : ℕ := 5) : List (List PageImage) :=
  createBatchesGo maxSizeMB maxImages images [] [] 0

theorem createBatchesGo_join (maxS : ℚ) (maxI : ℕ) :
    ∀ (imgs : List PageImage) (batches : List (List PageImage))
      (cur : List PageImage) (sz : ℚ),
    (createBatchesGo maxS maxI imgs batches cur sz).flatten =
      batches.flatten ++ cur ++ imgs := by
  intro imgs
  induction imgs with
  | nil =>
      intro batches cur sz
      by_cases h : cur.length > 0
      · simp [createBatchesGo, h]
      · have hcur : cur = [] := List.length_eq_zero.mp (Nat.eq_zero_of_not_pos h)
        simp [createBatchesGo, h, hcur]
  | cons img rest ih =>
      intro batches cur sz
      unfold createBatchesGo
      dsimp only
      split
      · rw [ih]; simp
      · rw [ih]; simp

/-- Invariant carried through the `createBatches` loop: a closed batch respects
the count ceiling, and respects the size ceiling unless it is a singleton. -/
def BatchOK (maxS : ℚ) (maxI : ℕ) (b : List PageImage) : Prop :=
  b.length ≤ maxI ∧ (2 ≤ b.length → batchSizeMB b ≤ maxS)

theorem createBatchesGo_inv (maxS : ℚ) (maxI : ℕ) (hmaxI : 1 ≤ maxI) :
    ∀ (imgs : List PageImage) (batches : List (List PageImage))
      (cur : List PageImage),
    (∀ b ∈ batches, BatchOK maxS maxI b) →
    cur.length ≤ maxI →
    (2 ≤ cur.length → batchSizeMB cur ≤ maxS) →
    ∀ b ∈ createBatchesGo maxS maxI imgs batches cur (batchSizeMB cur),
      BatchOK maxS maxI b := by
  intro imgs
  induction imgs with
  | nil =>
      intro batches cur hb hlen hsz b hmem
      unfold createBatchesGo at hmem
      split at hmem
      · rcases List.mem_append.mp hmem with h | h
        · exact hb b h
        · rcases List.mem_singleton.mp h with rfl
          exact ⟨hlen, hsz⟩
      · exact hb b hmem
  | cons img rest ih =>
      intro batches cur hb hlen hsz b hmem
      unfold createBatchesGo at hmem
      dsimp only at hmem
      split at hmem
      · -- flush: close `cur`, restart with `[img]`
        rename_i hflush
        have h1 : batchSizeMB [img] = imgSizeMB img := by
          simp [batchSizeMB]
        rw [← h1] at hmem
        refine ih (batches ++ [cur]) [img] ?_ ?_ ?_ b hmem
        · intro b' hb'
          rcases List.mem_append.mp hb' with h | h
          · exact hb b' h
          · rcases List.mem_singleton.mp h with rfl
            exact ⟨hlen, hsz⟩
        · simpa using hmaxI
        · intro h2; simp at h2
      · -- keep filling `cur`
        rename_i hnoflush
        push_neg at hnoflush
        obtain ⟨hsize, hcount⟩ := hnoflush
        have h1 : batchSizeMB cur + imgSizeMB img = batchSizeMB (cur ++ [img]) := by
          simp [batchSizeMB]
        rw [h1] at hmem
        refine ih batches (cur ++ [img]) hb ?_ ?_ b hmem
        · simp only [List.length_append, List.length_singleton]
          omega
        · intro h2
          have hpos : 0 < cur.length := by
            simp only [List.length_append, List.length_singleton] at h2
            omega
          have hle : batchSizeMB cur + imgSizeMB img ≤ maxS := by
            by_contra hgt
            push_neg at hgt
            have := hsize hgt
            omega
          rw [← h1]
          exact hle

/-- **C6** — For every input list of page images (and every size / count
ceiling), the concatenation of the batches produced by `createBatches`, in
batch order, is exactly the original input list: every image appears exactly
once, in its original relative order. -/
theorem C6_createBatches_concat (images : List PageImage) (maxSizeMB : ℚ)
    (maxImages : ℕ) :
    (createBatches images maxSizeMB maxImages).flatten = images := by
  unfold createBatches
  rw [createBatchesGo_join]
  simp

/-- **C5 (counterexample)** — The claim "every batch's total base64 payload is
at most `maxSizeMB`" fails: a single image whose payload alone exceeds the
size ceiling is placed in its own batch, which then exceeds the ceiling
(with `maxSizeMB = 1`, one image of `2 MB` of base64 yields one batch of
size `2 MB > 1 MB`). -/
theorem C5_counterexample :
    ∃ b ∈ createBatches [⟨1, 2097152⟩] 1 5, ¬ batchSizeMB b ≤ 1 := by
  refine ⟨[⟨1, 2097152⟩], ?_, ?_⟩
  · norm_num [createBatches, createBatchesGo, imgSizeMB]
  · norm_num [batchSizeMB, imgSizeMB]

/-- **C5 (amended)** — Whenever the count ceiling is at least 1, every batch
produced by `createBatches` contains at most `maxImages` images, and every
batch with at least two images has total base64 payload at most `maxSizeMB`;
a batch may exceed the size ceiling only when it is a singleton whose lone
image alone exceeds the ceiling (the forward-progress case). -/
theorem C5_createBatches_limits (images : List PageImage) (maxSizeMB : ℚ)
    (maxImages : ℕ) (hmaxI : 1 ≤ maxImages) :
    ∀ b ∈ createBatches images maxSizeMB maxImages,
      b.length ≤ maxImages ∧ (2 ≤ b.length → batchSizeMB b ≤ maxSizeMB) := by
  intro b hb
  have h0 : batchSizeMB ([] : List PageImage) = 0 := by simp [batchSizeMB]
  unfold createBatches at hb
  rw [← h0] at hb
  exact createBatchesGo_inv maxSizeMB maxImages hmaxI images [] []
    (by intro b' hb'; simp at hb') (by simp) (by intro h; simp at h) b hb

/-- **C5 (witness)** — instantiation of the amended batch-limit theorem on the
spec's scenario shape: images of 0.4 MB each with `maxSizeMB = 3, maxImages
= 5`; the first produced batch respects both ceilings. -/
theorem C5_witness :
    ([⟨1, 419430⟩, ⟨2, 419430⟩] : List PageImage).length ≤ 5 ∧
      (2 ≤ ([⟨1, 419430⟩, ⟨2, 419430⟩] : List PageImage).length →
        batchSizeMB [⟨1, 419430⟩, ⟨2, 419430⟩] ≤ 3) :=
  C5_createBatches_limits [⟨1, 419430⟩, ⟨2, 419430⟩] 3 5 (by norm_num)
    [⟨1, 419430⟩, ⟨2, 419430⟩] (by norm_num [createBatches, createBatchesGo, imgSizeMB])

/-! ## Embedding Client retry policy (`src/unnamed/part_001`, `withRetry`) -/

/-- `charsContains p l` — whether `p` occurs as a contiguous sublist of `l`;
models JavaScript `String.prototype.includes`. -/
def charsContains (p : List Char) : List Char → Bool
  | [] => p.isPrefixOf []
  | c :: t => p.isPrefixOf (c :: t) || charsContains p t

/-- `s.includes(pat)` on strings. -/
def strIncludes (s pat : String) : Bool := charsContains pat.data s.data

/-- `error.message?.includes('429') || ...includes('quota') || ...includes('rate')`
— the rate-limit classification used by `withRetry`. -/
def isRateLimitMessage (msg : String) : Bool :=
  strIncludes msg "429" || strIncludes msg "quota" || strIncludes msg "rate"

/-- The retry loop of `withRetry`.  `fn i` is the outcome of the `i`-th call
attempt (the JS closure is stateful, so successive attempts may differ).  The
result pairs the final outcome with the list of backoff waits performed (ms);
`.ok none` models the loop finishing without a `return` (JS `undefined`),
which is unreachable for `maxRetries ≥ 1`. -/
def withRetryGo (fn : ℕ → Except String α) (maxRetries : ℕ) (attempt : ℕ)
    (waits : List ℕ) : Except String (Option α) × List ℕ :=
  if attempt ≤ maxRetries then
    match fn attempt with
    | .ok v => (.ok (some v), waits)
    | .error e =>
        if isRateLimitMessage e ∧ attempt < maxRetries then
          withRetryGo fn maxRetries (attempt + 1)
            (waits ++ [15000 * 2 ^ (attempt - 1)])
        else (.error e, waits)
  else (.ok none, waits)
termination_by maxRetries + 1 - attempt
decreasing_by omega

/-- `withRetry(fn, maxRetries = 3)` from `src/unnamed/part_001`. -/
def withRetry (fn : ℕ → Except String α) (maxRetries : ℕ := 3) :
    Except String (Option α) × List ℕ :=
  withRetryGo fn maxRetries 1 []

/-- **C9** — With the default ceiling of 3 total attempts: a first-attempt
success returns immediately; a failure not classified as rate-limiting
propagates immediately with no backoff; a rate-limit failure is retried after
a 15 s backoff; a second rate-limit failure is retried after a doubled 30 s
backoff; and after the third (ceiling) attempt the outcome — success or
error, rate-limited or not — propagates with exactly the two backoffs
[15000, 30000] having been performed. -/
theorem C9_withRetry_policy {α : Type} (fn : ℕ → Except String α) :
    (∀ v, fn 1 = .ok v → withRetry fn 3 = (.ok (some v), [])) ∧
    (∀ e, fn 1 = .error e → isRateLimitMessage e = false →
      withRetry fn 3 = (.error e, [])) ∧
    (∀ e₁ v, fn 1 = .error e₁ → isRateLimitMessage e₁ = true →
      fn 2 = .ok v → withRetry fn 3 = (.ok (some v), [15000])) ∧
    (∀ e₁ e₂, fn 1 = .error e₁ → isRateLimitMessage e₁ = true →
      fn 2 = .error e₂ → isRateLimitMessage e₂ = false →
      withRetry fn 3 = (.error e₂, [15000])) ∧
    (∀ e₁ e₂, fn 1 = .error e₁ → isRateLimitMessage e₁ = true →
      fn 2 = .error e₂ → isRateLimitMessage e₂ = true →
      withRetry fn 3 = ((fn 3).map some, [15000, 30000])) := by
  refine ⟨?_, ?_, ?_, ?_, ?_⟩
  · intro v h
    unfold withRetry withRetryGo
    simp [h]
  · intro e h hrl
    unfold withRetry withRetryGo
    simp [h, hrl]
  · intro e₁ v h1 hrl1 h2
    unfold withRetry withRetryGo
    simp only [h1]
    rw [if_pos (by omega), if_pos (by simp [hrl1])]
    unfold withRetryGo
    simp [h2]
  · intro e₁ e₂ h1 hrl1 h2 hrl2
    unfold withRetry withRetryGo
    simp only [h1]
    rw [if_pos (by omega), if_pos (by simp [hrl1])]
    unfold withRetryGo
    simp [h2, hrl2]
  · intro e₁ e₂ h1 hrl1 h2 hrl2
    unfold withRetry withRetryGo
    simp only [h1]
    rw [if_pos (by omega), if_pos (by simp [hrl1])]
    unfold withRetryGo
    simp only [h2]
    rw [if_pos (by omega), if_pos (by simp [hrl2])]
    unfold withRetryGo
    rw [if_pos (by omega)]
    cases h3 : fn 3 <;> simp [h3, Except.map]

/-- **C9 (witness)** — a call that is rate-limited on the first two attempts
and succeeds on the third returns that success after backoffs of exactly
15 s and 30 s. -/
theorem C9_witness :
    withRetry (fun i => if i ≤ 2 then .error "HTTP 429: rate limit" else .ok 7) 3 =
      (.ok (some 7), [15000, 30000]) := by
  have h := (C9_withRetry_policy
      (fun i => if i ≤ 2 then .error "HTTP 429: rate limit" else .ok (7 : ℕ))).2.2.2.2
    "HTTP 429: rate limit" "HTTP 429: rate limit" rfl (by decide) rfl (by decide)
  simpa using h

/-! ## Chunking Engine (`src/unnamed/part_000`, `chunkTextSemantic` /
`chunkLongSentence`) -/

/-- JavaScript `\s` on the character sets appearing in this pipeline: space,
tab, newline, carriage return, vertical tab, form feed. -/
def isJsWhitespace (c : Char) : Bool :=
  c = ' ' || c = '\t' || c = '\n' || c = '\r' || c = '\x0b' || c = '\x0c'

/-- `text.replace(/\s+/g, ' ')` — every maximal whitespace run becomes one
space.  `prevWs` records whether the previous character was whitespace. -/
def collapseWsGo (prevWs : Bool) : List Char → List Char
  | [] => []
  | c :: t =>
      if isJsWhitespace c then
        (if prevWs then [] else [' ']) ++ collapseWsGo true t
      else c :: collapseWsGo false t

def collapseWs (l : List Char) : List Char := collapseWsGo false l

/-- `text.replace(/\n+/g, '\n')`. -/
def collapseNlGo (prevNl : Bool) : List Char → List Char
  | [] => []
  | c :: t =>
      if c = '\n' then
        (if prevNl then [] else ['\n']) ++ collapseNlGo true t
      else c :: collapseNlGo false t

def collapseNl (l : List Char) : List Char := collapseNlGo false l

/-- `String.prototype.trim()` restricted to the whitespace characters above. -/
def jsTrim (l : List Char) : List Char :=
  ((l.dropWhile isJsWhitespace).reverse.dropWhile isJsWhitespace).reverse

def jsTrimStr (s : String) : String := String.mk (jsTrim s.data)

/-- The terminator class of the sentence pattern `[^。！？.!?\n]+[。！？.!?\n]?`. -/
def isSentenceTerminator (c : Char) : Bool :=
  c = '。' || c = '！' || c = '？' || c = '.' || c = '!' || c = '?' || c = '\n'

/-- Global matching of `/[^。！？.!?\n]+[^]?/`: a match is a maximal run of
non-terminators plus at most one trailing terminator; positions where no
match can start (bare terminators) are skipped, exactly as `String.match`
with a `g`-flag regex does. -/
def splitGo (acc : List Char) : List Char → List (List Char)
  | [] => if acc.isEmpty then [] else [acc.reverse]
  | c :: t =>
      if isSentenceTerminator c then
        if acc.isEmpty then splitGo [] t
        else (acc.reverse ++ [c]) :: splitGo [] t
      else splitGo (c :: acc) t

def regexMatches (l : List Char) : List (List Char) := splitGo [] l

/-- `cleanedText.match(sentencePattern) || [cleanedText]`. -/
def splitSentences (cleaned : List Char) : List (List Char) :=
  match regexMatches cleaned with
  | [] => [cleaned]
  | ss => ss

/-- `sentence.lastIndexOf(c, fromIdx)` — greatest index `≤ fromIdx` holding
`c`; `none` models JavaScript's `-1`. -/
def lastIndexOfAt (l : List Char) (c : Char) (fromIdx : ℕ) : Option ℕ :=
  (List.range (min (fromIdx + 1) l.length)).reverse.find?
    (fun i => l.get? i = some c)

/-- `sentence.substring(start, end)` with JavaScript clamping (negatives to 0,
over-length to length, swapped bounds reordered). -/
def jsSubstring (l : List Char) (a b : ℤ) : List Char :=
  let a' := (min (max a 0) (l.length : ℤ)).toNat
  let b' := (min (max b 0) (l.length : ℤ)).toNat
  (l.take (max a' b')).drop (min a' b')

def breakPoints : List Char := [',', '，', ';', '；', ':', '：', ' ']

/-- The break-point scan of `chunkLongSentence`: the first break character
whose last occurrence at or before `endIdx` lies strictly beyond
`start + maxSize / 2` moves `end` to just after it.  The comparison
`lastBreak > start + maxSize / 2` over JS floats is encoded integrally as
`2 * lastBreak > 2 * start + maxSize` (`start` may be negative in JS, hence
`ℤ`). -/
def findBreakEnd (sentence : List Char) (start : ℤ) (maxSize : ℕ)
    (endIdx : ℕ) : ℕ :=
  go breakPoints
where
  go : List Char → ℕ
    | [] => endIdx
    | bp :: bps =>
        match lastIndexOfAt sentence bp endIdx with
        | some lastBreak =>
            if 2 * (lastBreak : ℤ) > 2 * start + (maxSize : ℤ) then lastBreak + 1
            else go bps
        | none => go bps

/-- The per-iteration `end` of the `chunkLongSentence` loop: `start + maxSize`,
moved to a break point when that lands strictly inside the sentence. -/
def chunkEndIdx (sentence : List Char) (maxSize : ℕ) (start : ℤ) : ℤ :=
  let end0 : ℤ := start + maxSize
  if end0 < (sentence.length : ℤ) then
    (findBreakEnd sentence start maxSize end0.toNat : ℤ)
  else end0

/-- The `while (start < sentence.length)` loop of `chunkLongSentence`.
`start` lives in `ℤ` because `start = end - overlap` can go negative in JS.
The JS loop does not terminate for some small `maxSize` (the 50-character
overlap can move `start` backwards); `fuel` truncates exactly those divergent
runs and is large enough to be invisible on all terminating ones reached with
the default `maxSize = 800`. -/
def chunkLongSentenceGo (sentence : List Char) (maxSize : ℕ) :
    ℕ → ℤ → List String → List String
  | 0, _, chunks => chunks
  | fuel + 1, start, chunks =>
      if start < (sentence.length : ℤ) then
        let endIdx := chunkEndIdx sentence maxSize start
        let piece := String.mk (jsTrim (jsSubstring sentence start endIdx))
        chunkLongSentenceGo sentence maxSize fuel (endIdx - 50) (chunks ++ [piece])
      else chunks

/-- `chunkLongSentence(sentence, maxSize)` from `src/unnamed/part_000`. -/
def chunkLongSentence (sentence : List Char) (maxSize : ℕ) : List String :=
  chunkLongSentenceGo sentence maxSize (sentence.length + 1) 0 []

/-- `currentChunk.join(' ')`. -/
def joinSpace : List String → String
  | [] => ""
  | [s] => s
  | s :: rest => s ++ " " ++ joinSpace rest

/-- Loop state of `chunkTextSemantic`: emitted chunks, the sentences of the
chunk being built, and `currentLength` (the running sum of their lengths). -/
structure ChunkState where
  chunks : List String
  currentChunk : List String
  currentLength : ℕ

/-- One iteration of the sentence loop of `chunkTextSemantic`. -/
def chunkStep (maxSize overlapSentences : ℕ) (st : ChunkState)
    (sentenceRaw : List Char) : ChunkState :=
  let sentence := jsTrim sentenceRaw
  if sentence.isEmpty then st
  else
    let sentenceLength := sentence.length
    if sentenceLength > maxSize then
      let st' :=
        if st.currentChunk.length > 0 then
          { st with chunks := st.chunks ++ [joinSpace st.currentChunk],
                    currentChunk := [], currentLength := 0 }
        else st
      { st' with chunks := st'.chunks ++ chunkLongSentence sentence maxSize }
    else
      let st' :=
        if st.currentLength + sentenceLength > maxSize ∧ st.currentChunk.length > 0 then
          let overlapStart := st.currentChunk.length - overlapSentences
          let kept := st.currentChunk.drop overlapStart
          { chunks := st.chunks ++ [joinSpace st.currentChunk],
            currentChunk := kept,
            currentLength := (kept.map String.length).sum }
        else st
      { st' with currentChunk := st'.currentChunk ++ [String.mk sentence],
                 currentLength := st'.currentLength + sentenceLength }

/-- `chunkTextSemantic(text, maxSize = 800, overlapSentences = 2)` from
`src/unnamed/part_000`. -/
def chunkTextSemantic (text : String) (maxSize : ℕ := 800)
    (overlapSentences : ℕ := 2) : List String :=
  let cleaned := jsTrim (collapseNl (collapseWs text.data))
  if cleaned.isEmpty then []
  else
    let sentences := splitSentences cleaned
    let final := sentences.foldl (chunkStep maxSize overlapSentences) ⟨[], [], 0⟩
    let chunks :=
      if final.currentChunk.length > 0 then
        final.chunks ++ [joinSpace final.currentChunk]
      else final.chunks
    chunks.filter (fun c => (jsTrimStr c).length > 50)

/-- Input for the C2 counterexample: three sentences of 55 characters each
(54 `'a'`s and a period). -/
def c2Sentence : List Char := List.replicate 54 'a' ++ ['.']

def c2Text : String := String.mk (c2Sentence ++ c2Sentence ++ c2Sentence)

/-- **C2 (counterexample)** — With `maxSize = 60` and `overlapSentences = 2`,
an input of three 55-character sentences has no sentence longer than
`maxSize` (so forced splitting never runs), yet `chunkTextSemantic` emits a
chunk longer than `maxSize`: the sentence overlap re-seeds the next chunk
with up to `overlapSentences` already-emitted sentences, producing chunks of
lengths 55, 111 and 167. -/
theorem C2_counterexample :
    (splitSentences (jsTrim (collapseNl (collapseWs c2Text.data)))).all
        (fun s => (jsTrim s).length ≤ 60) = true ∧
      (chunkTextSemantic c2Text 60 2).any (fun c => 60 < c.length) = true := by
  decide

theorem jsTrim_length_le (l : List Char) : (jsTrim l).length ≤ l.length := by
  unfold jsTrim
  calc ((l.dropWhile isJsWhitespace).reverse.dropWhile isJsWhitespace).reverse.length
      = ((l.dropWhile isJsWhitespace).reverse.dropWhile isJsWhitespace).length := by
        rw [List.length_reverse]
    _ ≤ (l.dropWhile isJsWhitespace).reverse.length :=
        (List.dropWhile_sublist _).length_le
    _ = (l.dropWhile isJsWhitespace).length := by rw [List.length_reverse]
    _ ≤ l.length := (List.dropWhile_sublist _).length_le

theorem jsSubstring_length_eq (l : List Char) (a b : ℤ) :
    (jsSubstring l a b).length =
      min (max (min (max a 0) (l.length : ℤ)).toNat (min (max b 0) (l.length : ℤ)).toNat)
          l.length -
        min (min (max a 0) (l.length : ℤ)).toNat (min (max b 0) (l.length : ℤ)).toNat := by
  simp [jsSubstring, List.length_drop, List.length_take]

theorem lastIndexOfAt_bounds {l : List Char} {c : Char} {f i : ℕ}
    (h : lastIndexOfAt l c f = some i) : i ≤ f ∧ i < l.length := by
  unfold lastIndexOfAt at h
  have hmem := List.mem_of_find?_eq_some h
  rw [List.mem_reverse, List.mem_range] at hmem
  omega

theorem findBreakEndGo_cases (s : List Char) (start : ℤ) (maxSize endIdx : ℕ) :
    ∀ bps : List Char,
      findBreakEnd.go s start maxSize endIdx bps = endIdx ∨
        ∃ lb, lb ≤ endIdx ∧ lb < s.length ∧ 2 * (lb : ℤ) > 2 * start + (maxSize : ℤ) ∧
          findBreakEnd.go s start maxSize endIdx bps = lb + 1 := by
  intro bps
  induction bps with
  | nil => left; rfl
  | cons bp bps ih =>
      unfold findBreakEnd.go
      cases hfind : lastIndexOfAt s bp endIdx with
      | none => simpa using ih
      | some lb =>
          by_cases hcond : 2 * (lb : ℤ) > 2 * start + (maxSize : ℤ)
          · right
            obtain ⟨h1, h2⟩ := lastIndexOfAt_bounds hfind
            exact ⟨lb, h1, h2, hcond, by simp [hcond]⟩
          · simpa [hcond] using ih

theorem findBreakEnd_bounds (s : List Char) (start : ℤ) (maxSize endIdx : ℕ) :
    findBreakEnd s start maxSize endIdx ≤ endIdx + 1 ∧
      (start ≤ (endIdx : ℤ) → start ≤ (findBreakEnd s start maxSize endIdx : ℤ)) := by
  unfold findBreakEnd
  rcases findBreakEndGo_cases s start maxSize endIdx breakPoints with h | ⟨lb, h1, _, h3, h4⟩
  · rw [h]; exact ⟨by omega, fun h' => h'⟩
  · rw [h4]
    constructor
    · omega
    · intro _
      have : (maxSize : ℤ) ≥ 0 := by positivity
      push_cast
      omega

theorem chunkEndIdx_bounds (s : List Char) (maxSize : ℕ) (start : ℤ) :
    start ≤ chunkEndIdx s maxSize start ∧
      chunkEndIdx s maxSize start ≤ max (start + maxSize + 1) 1 := by
  unfold chunkEndIdx
  dsimp only
  split
  · rename_i hlt
    obtain ⟨hle, hge⟩ := findBreakEnd_bounds s start maxSize (start + maxSize).toNat
    have hnn : (maxSize : ℤ) ≥ 0 := by positivity
    constructor
    · exact hge (by omega)
    · have : (findBreakEnd s start maxSize (start + maxSize).toNat : ℤ) ≤
          ((start + maxSize).toNat : ℤ) + 1 := by exact_mod_cast hle
      omega
  · have hnn : (maxSize : ℤ) ≥ 0 := by positivity
    omega

/-- Every piece cut by one iteration of the `chunkLongSentence` loop is at most
`maxSize + 1` characters (the `+ 1` is the single-character overrun when a
break point sits exactly at `start + maxSize`). -/
theorem chunkPiece_length_le (s : List Char) (maxSize : ℕ) (start : ℤ) :
    (jsTrim (jsSubstring s start (chunkEndIdx s maxSize start))).length ≤
      maxSize + 1 := by
  obtain ⟨h1, h2⟩ := chunkEndIdx_bounds s maxSize start
  calc (jsTrim (jsSubstring s start (chunkEndIdx s maxSize start))).length
      ≤ (jsSubstring s start (chunkEndIdx s maxSize start)).length :=
        jsTrim_length_le _
    _ ≤ maxSize + 1 := by
        rw [jsSubstring_length_eq]
        omega

theorem chunkLongSentenceGo_bound (s : List Char) (maxSize : ℕ) :
    ∀ (fuel : ℕ) (start : ℤ) (chunks : List String),
      (∀ p ∈ chunks, p.length ≤ maxSize + 1) →
      ∀ p ∈ chunkLongSentenceGo s maxSize fuel start chunks,
        p.length ≤ maxSize + 1 := by
  intro fuel
  induction fuel with
  | zero => intro start chunks h p hp; exact h p hp
  | succ fuel ih =>
      intro start chunks h p hp
      unfold chunkLongSentenceGo at hp
      split at hp
      · refine ih _ _ ?_ p hp
        intro q hq
        rcases List.mem_append.mp hq with hq | hq
        · exact h q hq
        · rcases List.mem_singleton.mp hq with rfl
          simpa [String.length] using chunkPiece_length_le s maxSize start
      · exact h p hp

theorem chunkLongSentence_bound (s : List Char) (maxSize : ℕ) :
    ∀ p ∈ chunkLongSentence s maxSize, p.length ≤ maxSize + 1 := by
  intro p hp
  exact chunkLongSentenceGo_bound s maxSize _ 0 [] (by simp) p hp

theorem joinSpace_length :
    ∀ parts : List String,
      (joinSpace parts).length = (parts.map String.length).sum + parts.length - 1 := by
  intro parts
  induction parts with
  | nil => simp [joinSpace]
  | cons s rest ih =>
      cases rest with
      | nil => simp [joinSpace]
      | cons r rest' =>
          have h1 : joinSpace (s :: r :: rest') = s ++ " " ++ joinSpace (r :: rest') := rfl
          rw [h1]
          simp only [String.length_append, List.map_cons, List.sum_cons,
            List.length_cons] at ih ⊢
          have hsp : " ".length = 1 := rfl
          omega

theorem length_le_sum_of_one_le :
    ∀ l : List ℕ, (∀ x ∈ l, 1 ≤ x) → l.length ≤ l.sum := by
  intro l h
  induction l with
  | nil => simp
  | cons x t ih =>
      simp only [List.length_cons, List.sum_cons]
      have hx := h x (by simp)
      have ht := ih (fun y hy => h y (by simp [hy]))
      omega

/-- Bound on the chunk emitted when the current sentence buffer is flushed. -/
theorem flush_good (maxSize overlap : ℕ) (cur : List String)
    (hsent : ∀ s ∈ cur, 1 ≤ s.length ∧ s.length ≤ maxSize)
    (hdisj : (cur.map String.length).sum ≤ maxSize ∨ cur.length ≤ overlap + 1) :
    (joinSpace cur).length ≤ (overlap + 2) * maxSize + overlap + 1 := by
  have hlen := joinSpace_length cur
  rcases hdisj with hsum | hcount
  · have hc : cur.length ≤ (cur.map String.length).sum := by
      have := length_le_sum_of_one_le (cur.map String.length) ?_
      · simpa using this
      · intro x hx
        rcases List.mem_map.mp hx with ⟨s, hs, rfl⟩
        exact (hsent s hs).1
    have h2m : 2 * maxSize ≤ (overlap + 2) * maxSize :=
      Nat.mul_le_mul_right _ (by omega)
    omega
  · have hsum : (cur.map String.length).sum ≤ cur.length * maxSize := by
      have := List.sum_le_card_nsmul (cur.map String.length) maxSize ?_
      · simpa [smul_eq_mul] using this
      · intro x hx
        rcases List.mem_map.mp hx with ⟨s, hs, rfl⟩
        exact (hsent s hs).2
    have hmul : cur.length * maxSize ≤ (overlap + 1) * maxSize :=
      Nat.mul_le_mul_right _ hcount
    have hexp : (overlap + 2) * maxSize = (overlap + 1) * maxSize + maxSize := by ring
    omega

/-- Invariant of the `chunkTextSemantic` sentence loop: every emitted chunk
obeys the global length bound, `currentLength` caches the sum of buffered
sentence lengths, buffered sentences are nonempty and at most `maxSize`
long, and the buffer either still fits in `maxSize` or was just re-seeded by
the overlap (at most `overlapSentences` carried-over sentences plus one). -/
def ChunkInv (maxSize overlap : ℕ) (st : ChunkState) : Prop :=
  (∀ c ∈ st.chunks, c.length ≤ (overlap + 2) * maxSize + overlap + 1) ∧
  st.currentLength = (st.currentChunk.map String.length).sum ∧
  (∀ s ∈ st.currentChunk, 1 ≤ s.length ∧ s.length ≤ maxSize) ∧
  ((st.currentChunk.map String.length).sum ≤ maxSize ∨
    st.currentChunk.length ≤ overlap + 1)

theorem chunkStep_inv (maxSize overlap : ℕ) (st : ChunkState)
    (sraw : List Char) (h : ChunkInv maxSize overlap st) :
    ChunkInv maxSize overlap (chunkStep maxSize overlap st sraw) := by
  obtain ⟨hchunks, hlen, hsent, hdisj⟩ := h
  have hforcedB : maxSize + 1 ≤ (overlap + 2) * maxSize + overlap + 1 := by
    have : 1 * maxSize ≤ (overlap + 2) * maxSize := Nat.mul_le_mul_right _ (by omega)
    omega
  unfold chunkStep
  dsimp only
  split
  · exact ⟨hchunks, hlen, hsent, hdisj⟩
  · rename_i hne
    have hpos : 1 ≤ (jsTrim sraw).length := by
      have : jsTrim sraw ≠ [] := by
        intro hc; rw [hc] at hne; exact hne rfl
      have := List.length_pos.mpr this
      omega
    split
    · -- forced split of an over-long sentence
      rename_i hforced
      split
      · -- flush the buffer first
        refine ⟨?_, by simp, by simp, by simp⟩
        intro c hc
        simp only [List.append_assoc, List.mem_append, List.mem_singleton] at hc
        rcases hc with hc | hc | hc
        · exact hchunks c hc
        · subst hc
          exact flush_good maxSize overlap st.currentChunk hsent hdisj
        · have := chunkLongSentence_bound (jsTrim sraw) maxSize c hc
          omega
      · refine ⟨?_, hlen, hsent, hdisj⟩
        intro c hc
        simp only [List.mem_append] at hc
        rcases hc with hc | hc
        · exact hchunks c hc
        · have := chunkLongSentence_bound (jsTrim sraw) maxSize c hc
          omega
    · -- accumulating branch
      rename_i hnotforced
      have hslen : (jsTrim sraw).length ≤ maxSize := by omega
      split
      · -- flush, re-seed with the overlap suffix, then push the sentence
        rename_i hflush
        refine ⟨?_, ?_, ?_, ?_⟩
        · intro c hc
          simp only [List.mem_append, List.mem_singleton] at hc
          rcases hc with hc | hc
          · exact hchunks c hc
          · subst hc
            exact flush_good maxSize overlap st.currentChunk hsent hdisj
        · simp [String.length]
        · intro s hs
          simp only [List.mem_append, List.mem_singleton] at hs
          rcases hs with hs | hs
          · exact hsent s (List.mem_of_mem_drop hs)
          · subst hs
            exact ⟨by simpa [String.length] using hpos,
              by simpa [String.length] using hslen⟩
        · right
          simp only [List.length_append, List.length_singleton, List.length_drop]
          omega
      · -- push the sentence into the current buffer
        rename_i hnoflush
        refine ⟨hchunks, ?_, ?_, ?_⟩
        · simp [hlen, String.length]
        · intro s hs
          simp only [List.mem_append, List.mem_singleton] at hs
          rcases hs with hs | hs
          · exact hsent s hs
          · subst hs
            exact ⟨by simpa [String.length] using hpos,
              by simpa [String.length] using hslen⟩
        · rcases Nat.eq_zero_or_pos st.currentChunk.length with hz | hp
          · left
            have hcur : st.currentChunk = [] := List.length_eq_zero.mp hz
            simp [hcur, String.length]
            omega
          · left
            have hfit : st.currentLength + (jsTrim sraw).length ≤ maxSize := by
              by_contra hc
              exact hnoflush ⟨by omega, hp⟩
            simp only [List.map_append, List.sum_append, List.map_cons,
              List.sum_cons, List.map_nil, List.sum_nil]
            simp only [String.length]
            omega

theorem foldl_chunkStep_inv (maxSize overlap : ℕ) :
    ∀ (sents : List (List Char)) (st : ChunkState),
      ChunkInv maxSize overlap st →
      ChunkInv maxSize overlap (sents.foldl (chunkStep maxSize overlap) st) := by
  intro sents
  induction sents with
  | nil => intro st h; exact h
  | cons s rest ih =>
      intro st h
      exact ih _ (chunkStep_inv maxSize overlap st s h)

/-- **C2 (amended)** — Every chunk produced by the Chunking Engine has trimmed
length strictly greater than 50.  The size bound of the original claim holds
only in the weaker form `length ≤ (overlapSentences + 2) · maxSize +
overlapSentences + 1`: besides the (at most one character) forced-split
overrun, the sentence-overlap re-seeding lets a chunk carry up to
`overlapSentences` previously emitted sentences in addition to fresh ones,
and the `join(' ')` separators add up to `overlapSentences` more characters,
so chunks may exceed `maxSize` by roughly a factor of
`overlapSentences + 1` even when no forced split occurs. -/
theorem C2_chunk_length_bounds (text : String) (maxSize overlapSentences : ℕ) :
    ∀ c ∈ chunkTextSemantic text maxSize overlapSentences,
      50 < (jsTrimStr c).length ∧
        c.length ≤ (overlapSentences + 2) * maxSize + overlapSentences + 1 := by
  intro c hc
  unfold chunkTextSemantic at hc
  dsimp only at hc
  split at hc
  · simp at hc
  · rw [List.mem_filter] at hc
    obtain ⟨hcmem, hcgt⟩ := hc
    refine ⟨by simpa using of_decide_eq_true hcgt, ?_⟩
    have hInv := foldl_chunkStep_inv maxSize overlapSentences
      (splitSentences (jsTrim (collapseNl (collapseWs text.data))))
      ⟨[], [], 0⟩ ⟨by simp, by simp, by simp, by left; simp⟩
    obtain ⟨hchunks, _, hsent, hdisj⟩ := hInv
    split at hcmem
    · simp only [List.mem_append, List.mem_singleton] at hcmem
      rcases hcmem with hcmem | hcmem
      · exact hchunks c hcmem
      · subst hcmem
        exact flush_good maxSize overlapSentences _ hsent hdisj
    · exact hchunks c hcmem

/-- **C2 (witness)** — the first chunk of the counterexample input (a single
55-character sentence) satisfies both amended bounds at `maxSize = 60`,
`overlapSentences = 2`. -/
theorem C2_witness :
    50 < (jsTrimStr (String.mk c2Sentence)).length ∧
      (String.mk c2Sentence).length ≤ (2 + 2) * 60 + 2 + 1 :=
  C2_chunk_length_bounds c2Text 60 2 (String.mk c2Sentence) (by decide)

/-! ## Vector math and Vector Store (`src/unnamed/part_000`) -/

/-- The single-pass loop of `cosineSimilarity` accumulates
`Σ a[i]*b[i]`; squared norms are the same loop on a vector with itself. -/
def dotProduct (a b : List ℝ) : ℝ := (List.zipWith (· * ·) a b).sum

/-- `cosineSimilarity(vecA, vecB)` from `src/unnamed/part_000`.  `none` models
a missing (`undefined`/`null`) vector, rejected by the `!vecA || !vecB`
guard.  JS numbers are idealised as reals; Mathlib's `x / 0 = 0` convention
stands in for the `NaN` that JS produces on zero norms (the spec itself
treats that case as "NaN/0, no-match"). -/
noncomputable def cosineSimilarity (vecA vecB : Option (List ℝ)) : ℝ :=
  match vecA, vecB with
  | some a, some b =>
      if a.length ≠ b.length then 0
      else dotProduct a b /
        (Real.sqrt (dotProduct a a) * Real.sqrt (dotProduct b b))
  | _, _ => 0

theorem dotProduct_comm (a b : List ℝ) : dotProduct a b = dotProduct b a := by
  unfold dotProduct
  rw [List.zipWith_comm_of_comm]
  exact fun x y => mul_comm x y

theorem dotProduct_self_eq_sum_sq (a : List ℝ) :
    dotProduct a a = (a.map (fun x => x ^ 2)).sum := by
  unfold dotProduct
  rw [List.zipWith_same]
  congr 1
  exact List.map_congr_left (fun x _ => (sq x).symm)

theorem dotProduct_self_nonneg (a : List ℝ) : 0 ≤ dotProduct a a := by
  rw [dotProduct_self_eq_sum_sq]
  apply List.sum_nonneg
  intro x hx
  rcases List.mem_map.mp hx with ⟨y, _, rfl⟩
  positivity

theorem dotProduct_self_pos {a : List ℝ} (h : ∃ x ∈ a, x ≠ 0) :
    0 < dotProduct a a := by
  obtain ⟨x, hx, hne⟩ := h
  rw [dotProduct_self_eq_sum_sq]
  have hx2 : x ^ 2 ∈ a.map (fun y => y ^ 2) := List.mem_map_of_mem _ hx
  have hle : x ^ 2 ≤ (a.map (fun y => y ^ 2)).sum := by
    apply List.single_le_sum _ _ hx2
    intro y hy
    rcases List.mem_map.mp hy with ⟨z, _, rfl⟩
    positivity
  have hpos : 0 < x ^ 2 := by positivity
  linarith

/-- **C3** — The cosine similarity of the code is symmetric, returns exactly 0
whenever either vector is absent or the two lengths differ, and returns 1 on
`sim(a, a)` for every non-zero vector `a` (real-number semantics). -/
theorem C3_cosineSimilarity_props :
    (∀ x y : Option (List ℝ), cosineSimilarity x y = cosineSimilarity y x) ∧
    (∀ a b : List ℝ, a.length ≠ b.length →
      cosineSimilarity (some a) (some b) = 0) ∧
    (∀ x : Option (List ℝ),
      cosineSimilarity none x = 0 ∧ cosineSimilarity x none = 0) ∧
    (∀ a : List ℝ, (∃ v ∈ a, v ≠ 0) →
      cosineSimilarity (some a) (some a) = 1) := by
  refine ⟨?_, ?_, ?_, ?_⟩
  · intro x y
    match x, y with
    | none, none => rfl
    | none, some b => rfl
    | some a, none => rfl
    | some a, some b =>
        show (if a.length ≠ b.length then (0 : ℝ)
            else dotProduct a b /
              (Real.sqrt (dotProduct a a) * Real.sqrt (dotProduct b b))) =
          (if b.length ≠ a.length then (0 : ℝ)
            else dotProduct b a /
              (Real.sqrt (dotProduct b b) * Real.sqrt (dotProduct a a)))
        by_cases h : a.length = b.length
        · rw [if_neg (not_not_intro h), if_neg (not_not_intro h.symm),
            dotProduct_comm a b, mul_comm]
        · rw [if_pos h, if_pos (fun hc => h hc.symm)]
  · intro a b h
    show (if a.length ≠ b.length then (0 : ℝ) else _) = 0
    rw [if_pos h]
  · intro x
    constructor
    · rfl
    · match x with
      | none => rfl
      | some a => rfl
  · intro a h
    have hpos := dotProduct_self_pos h
    show (if a.length ≠ a.length then (0 : ℝ)
        else dotProduct a a /
          (Real.sqrt (dotProduct a a) * Real.sqrt (dotProduct a a))) = 1
    rw [if_neg (not_not_intro rfl), Real.mul_self_sqrt (le_of_lt hpos)]
    exact div_self (ne_of_gt hpos)

/-- **C3 (witness)** — `sim([1], [1]) = 1`. -/
theorem C3_witness : cosineSimilarity (some [1]) (some [1]) = 1 :=
  C3_cosineSimilarity_props.2.2.2 [1] ⟨1, by simp, one_ne_zero⟩

/-- A record of the `documents` object store (`saveDocument` fields). -/
structure DocRecord where
  id : ℕ
  name : String
  category : String
  chunkCount : ℕ
  embeddingDimension : ℕ

/-- A record of the `chunks` object store.  `embedding` is optional because
legacy records may lack it (the `!vecB` guard in `cosineSimilarity`). -/
structure ChunkRecord where
  id : ℕ
  docId : ℕ
  content : String
  embedding : Option (List ℝ)

/-- The persistent store: the `documents` collection and the `chunks`
collection (with its secondary index on `docId` modelled implicitly). -/
structure DBState where
  documents : List DocRecord
  chunks : List ChunkRecord

/-- `deleteDocument(docId)` from `src/unnamed/part_000`: delete the document
record by primary key, then cursor over the `docId` index deleting every
chunk whose `docId` matches. -/
def deleteDocument (docId : ℕ) (db : DBState) : DBState :=
  { documents := db.documents.filter (fun d => d.id ≠ docId),
    chunks := db.chunks.filter (fun c => c.docId ≠ docId) }

/-- **C4** — Deleting a document removes every chunk whose `docId` equals the
deleted id and leaves every chunk of any other document in the store. -/
theorem C4_deleteDocument_cascades (db : DBState) (docId : ℕ) :
    (∀ c ∈ (deleteDocument docId db).chunks, c.docId ≠ docId) ∧
    (∀ c ∈ db.chunks, c.docId ≠ docId → c ∈ (deleteDocument docId db).chunks) ∧
    (∀ c ∈ (deleteDocument docId db).chunks, c ∈ db.chunks) := by
  refine ⟨?_, ?_, ?_⟩
  · intro c hc
    have := (List.mem_filter.mp hc).2
    simpa using of_decide_eq_true this
  · intro c hc hne
    exact List.mem_filter.mpr ⟨hc, by simpa using hne⟩
  · intro c hc
    exact (List.mem_filter.mp hc).1

/-- **C4 (witness)** — in a store with one chunk of document 1 and one chunk of
document 2, the chunk of document 2 survives `deleteDocument(1)`. -/
theorem C4_witness :
    (⟨2, 2, "y", none⟩ : ChunkRecord) ∈
      (deleteDocument 1
        ⟨[⟨1, "d1", "cat", 1, 0⟩, ⟨2, "d2", "cat", 1, 0⟩],
         [⟨1, 1, "x", none⟩, ⟨2, 2, "y", none⟩]⟩).chunks :=
  (C4_deleteDocument_cascades
      ⟨[⟨1, "d1", "cat", 1, 0⟩, ⟨2, "d2", "cat", 1, 0⟩],
       [⟨1, 1, "x", none⟩, ⟨2, 2, "y", none⟩]⟩ 1).2.1
    ⟨2, 2, "y", none⟩ (List.mem_cons_of_mem _ (List.mem_cons_self _ _))
    (by decide)

/-- A search hit: the chunk record spread together with its similarity
(`{...chunk, similarity}`). -/
structure SearchResult where
  chunk : ChunkRecord
  similarity : ℝ

/-- `searchChunks(queryEmbedding, filterDocIds = null, limit = 5)` from
`src/unnamed/part_000`: optionally filter by document ids (only when the
filter is present and non-empty), attach cosine similarities, sort
descending by similarity, and keep the top `limit`. -/
noncomputable def searchChunks (queryEmbedding : List ℝ)
    (filterDocIds : Option (List ℕ)) (limit : ℕ) (db : DBState) :
    List SearchResult :=
  let chunks : List ChunkRecord :=
    match filterDocIds with
    | some ids =>
        if 0 < ids.length then db.chunks.filter (fun c => ids.contains c.docId)
        else db.chunks
    | none => db.chunks
  let results : List SearchResult := chunks.map
    (fun c => ⟨c, cosineSimilarity (some queryEmbedding) c.embedding⟩)
  (results.mergeSort (fun x y => decide (y.similarity ≤ x.similarity))).take limit

/-- **C10** — Passing an empty filter list to the vector-store search behaves
identically to passing no filter at all: the `filterDocIds && length > 0`
guard skips filtering, so every stored chunk stays a candidate. -/
theorem C10_searchChunks_empty_filter (queryEmbedding : List ℝ) (limit : ℕ)
    (db : DBState) :
    searchChunks queryEmbedding (some []) limit db =
      searchChunks queryEmbedding none limit db := by
  unfold searchChunks
  norm_num

/-! ## Conversational Retrieval Orchestrator (`src/src/App.jsx`,
`handleSendMessage`) -/

structure ChatMessage where
  role : String
  content : String

/-- The intent returned by `analyzeQueryIntent` (strict JSON
`{type, newQuery}`; on parse failure the caller receives
`{type: 'search', newQuery: query}`). -/
structure Intent where
  itype : String
  newQuery : String

/-- The fixed no-relevant-information reply of `handleSendMessage`. -/
def noRelevantInfoMsg : String := "知識庫中無相關資訊。請嘗試換個問法或上傳相關文件。"

/-- Observable outcome of one `handleSendMessage` turn: the assistant message
appended, whether `chatWithGroq` (the answer-generation model) was called,
and the chunks that would ground the answer. -/
structure TurnOutcome where
  reply : ChatMessage
  generationCalled : Bool
  chunksUsed : List SearchResult

/-- The decision core of `handleSendMessage` (post-intent): on a `search`
intent the turn short-circuits with the fixed reply when the search returned
nothing (`!results[0]`) or its top similarity is strictly below the
threshold; otherwise `chatWithGroq` runs on the retrieved (or, for `chat`
intents, the previous) chunks and its reply is appended. -/
noncomputable def handleSendMessageCore (intent : Intent)
    (results : List SearchResult) (lastChunks : List SearchResult)
    (similarityThreshold : ℝ) (genReply : String) : TurnOutcome :=
  if intent.itype = "search" then
    match results.head? with
    | none => ⟨⟨"assistant", noRelevantInfoMsg⟩, false, lastChunks⟩
    | some top =>
        if top.similarity < similarityThreshold then
          ⟨⟨"assistant", noRelevantInfoMsg⟩, false, lastChunks⟩
        else ⟨⟨"assistant", genReply⟩, true, results⟩
  else ⟨⟨"assistant", genReply⟩, true, lastChunks⟩

/-- **C1** — On a `search` intent, when the vector search returns no result or
a top result strictly below the similarity threshold, the turn ends with the
fixed "no relevant information" assistant reply and the generation model is
never called. -/
theorem C1_search_short_circuit (intent : Intent) (results : List SearchResult)
    (lastChunks : List SearchResult) (similarityThreshold : ℝ)
    (genReply : String) (hintent : intent.itype = "search")
    (hmiss : results.head? = none ∨
      ∃ top, results.head? = some top ∧ top.similarity < similarityThreshold) :
    (handleSendMessageCore intent results lastChunks similarityThreshold
        genReply).reply = ⟨"assistant", noRelevantInfoMsg⟩ ∧
      (handleSendMessageCore intent results lastChunks similarityThreshold
        genReply).generationCalled = false := by
  unfold handleSendMessageCore
  rw [if_pos hintent]
  rcases hmiss with hnone | ⟨top, hhead, hlt⟩
  · rw [hnone]
    exact ⟨rfl, rfl⟩
  · rw [hhead]
    dsimp only
    rw [if_pos hlt]
    exact ⟨rfl, rfl⟩

/-- **C1 (witness)** — the spec's scenario: best similarity 0.20 against
threshold 0.25 yields the fixed reply with zero generation calls. -/
theorem C1_witness :
    (handleSendMessageCore ⟨"search", "q"⟩ [⟨⟨1, 1, "c", none⟩, 1 / 5⟩] []
        (1 / 4) "generated").reply = ⟨"assistant", noRelevantInfoMsg⟩ ∧
      (handleSendMessageCore ⟨"search", "q"⟩ [⟨⟨1, 1, "c", none⟩, 1 / 5⟩] []
        (1 / 4) "generated").generationCalled = false :=
  C1_search_short_circuit ⟨"search", "q"⟩ [⟨⟨1, 1, "c", none⟩, 1 / 5⟩] []
    (1 / 4) "generated" rfl
    (Or.inr ⟨⟨⟨1, 1, "c", none⟩, 1 / 5⟩, rfl, by norm_num⟩)

/-! ## Document Classifier and hybrid extraction (`src/src/lib/ocr.js`) -/

/-- A PDF page as the classifier and extractor see it: the `str` fields of its
`getTextContent().items` and its viewport area at scale 1.0. -/
structure PdfPage where
  items : List String
  area : ℚ

structure DetectionResult where
  isImageBased : Bool
  textDensity : ℚ
  totalTextLength : ℕ
  pagesChecked : ℕ
  confidence : String

/-- `detectImageBasedPDF(pdfDoc, samplePages = 3)` from `src/src/lib/ocr.js`.
Per-page text is `items.join('')` with all whitespace stripped
(`replace(/\s/g, '')`).  The density threshold `0.001` is `1/1000`.  On an
empty sample JS computes `0/0 = NaN`; ℚ's `0/0 = 0` stands in for it (either
way `isImageBased` is decided by `totalTextLength < 100` there, and no error
is thrown). -/
def detectImageBasedPDF (pages : List PdfPage) (samplePages : ℕ := 3) :
    DetectionResult :=
  let pagesToCheck := min samplePages pages.length
  let sampled := pages.take pagesToCheck
  let totalTextLength := (sampled.map (fun p =>
      ((String.join p.items).data.filter (fun c => !isJsWhitespace c)).length)).sum
  let totalArea : ℚ := (sampled.map (fun p => p.area)).sum
  let textDensity : ℚ := (totalTextLength : ℚ) / totalArea
  let isImageBased : Bool :=
    decide (textDensity < 1 / 1000 ∨ totalTextLength < 100)
  { isImageBased := isImageBased
    textDensity := textDensity
    totalTextLength := totalTextLength
    pagesChecked := pagesToCheck
    confidence := if isImageBased then "high" else "low" }

/-- **C8 (evidence)** — On a zero-page document `detectImageBasedPDF` does not
fail fast: it returns a classification (`isImageBased = true`, confidence
`"high"`) computed from a zero total page area (`0/0`, `NaN` in JS), instead
of raising the explicit error the specification requires. -/
theorem C8_detect_zero_pages_returns :
    detectImageBasedPDF [] 3 =
      { isImageBased := true, textDensity := 0, totalTextLength := 0,
        pagesChecked := 0, confidence := "high" } := by
  unfold detectImageBasedPDF
  norm_num

/-- A per-page record of `hybridParsePDF` (`{pageNum, text, needsOCR}`, with
`ocrApplied` set during the merge step; `false` models the initially absent
field). -/
structure PageRecord where
  pageNum : ℕ
  text : String
  needsOCR : Bool
  ocrApplied : Bool
  deriving DecidableEq

structure HybridStats where
  totalPages : ℕ
  textLayerPages : ℕ
  ocrPages : ℕ
  deriving DecidableEq

structure HybridResult where
  pageTexts : List PageRecord
  stats : HybridStats
  fullText : String

/-- A page's text-layer content: `items.map(i => i.str).join(' ').trim()`. -/
def pageTextLayer (p : PdfPage) : String := jsTrimStr (joinSpace p.items)

/-- First round of `hybridParsePDF`: extract each page's text layer; pages
under the OCR threshold are recorded empty and marked `needsOCR`. -/
def hybridFirstRound (pages : List PdfPage) (ocrThreshold : ℕ) :
    List PageRecord :=
  pages.enum.map (fun ip =>
    if (pageTextLayer ip.2).length < ocrThreshold then
      ⟨ip.1 + 1, "", true, false⟩
    else ⟨ip.1 + 1, pageTextLayer ip.2, false, false⟩)

/-- The merge step for one OCR result: `findIndex(p => p.pageNum ===
result.pageNum)` followed by an in-place text/`ocrApplied` update (no-op
when the page number is absent). -/
def applyOCRResult : List PageRecord → ℕ × String → List PageRecord
  | [], _ => []
  | p :: rest, res =>
      if p.pageNum = res.1 then
        { p with text := res.2, ocrApplied := true } :: rest
      else p :: applyOCRResult rest res


/-- The merged per-page list of `hybridParsePDF`: the text-layer first round,
with OCR results merged back in when pages need OCR and a credential is
available. -/
def hybridPageTexts (pages : List PdfPage) (hasGroqKey : Bool)
    (ocr : ℕ → String) (ocrThreshold maxOCRPages : ℕ) : List PageRecord :=
  let firstRound := hybridFirstRound pages ocrThreshold
  let ocrNeededPages := (firstRound.filter (fun p => p.needsOCR)).map
    (fun p => p.pageNum)
  if 0 < ocrNeededPages.length ∧ hasGroqKey then
    let pagesToOCR := ocrNeededPages.take maxOCRPages
    let ocrResults := pagesToOCR.map (fun n => (n, ocr n))
    ocrResults.foldl applyOCRResult firstRound
  else firstRound

/-- `hybridParsePDF(file, groqApiKey, {ocrThreshold = 100, maxOCRPages = 999},
onProgress)` from `src/src/lib/ocr.js`.  The remote OCR call is modelled by
the oracle `ocr : pageNum → recognised text`; `hasGroqKey = false` models an
absent credential (second round skipped). -/
def hybridParsePDF (pages : List PdfPage) (hasGroqKey : Bool)
    (ocr : ℕ → String) (ocrThreshold : ℕ := 100) (maxOCRPages : ℕ := 999) :
    HybridResult :=
  let pageTexts := hybridPageTexts pages hasGroqKey ocr ocrThreshold maxOCRPages
  { pageTexts := pageTexts
    stats :=
      { totalPages := pages.length
        textLayerPages := (pageTexts.filter (fun p => !p.needsOCR)).length
        ocrPages := (pageTexts.filter (fun p => p.ocrApplied)).length }
    fullText := String.intercalate "\n\n"
      ((pageTexts.filter (fun p => 0 < p.text.length)).map (fun p => p.text)) }

theorem hybridFirstRound_getElem (pages : List PdfPage) (thr i : ℕ) :
    (hybridFirstRound pages thr)[i]? = pages[i]?.map (fun p =>
      if (pageTextLayer p).length < thr then ⟨i + 1, "", true, false⟩
      else ⟨i + 1, pageTextLayer p, false, false⟩) := by
  unfold hybridFirstRound
  rw [List.getElem?_map, List.getElem?_enum]
  cases pages[i]? <;> rfl

theorem hybridFirstRound_length (pages : List PdfPage) (thr : ℕ) :
    (hybridFirstRound pages thr).length = pages.length := by
  unfold hybridFirstRound
  rw [List.length_map, List.enum_length]

theorem hybridFirstRound_pageNum (pages : List PdfPage) (thr : ℕ) :
    ∀ i rec, (hybridFirstRound pages thr)[i]? = some rec →
      rec.pageNum = i + 1 := by
  intro i rec h
  rw [hybridFirstRound_getElem] at h
  cases hp : pages[i]? with
  | none => rw [hp] at h; simp at h
  | some p =>
      rw [hp] at h
      simp only [Option.map_some'] at h
      split at h <;> (injection h with h2; subst h2; rfl)

theorem applyOCRResult_length :
    ∀ (pts : List PageRecord) (res : ℕ × String),
      (applyOCRResult pts res).length = pts.length := by
  intro pts res
  induction pts with
  | nil => rfl
  | cons p rest ih =>
      unfold applyOCRResult
      split <;> simp [ih]

theorem applyOCRResult_pointwise :
    ∀ (pts : List PageRecord) (res : ℕ × String) (i : ℕ) (rec : PageRecord),
      pts[i]? = some rec →
      ∃ rec', (applyOCRResult pts res)[i]? = some rec' ∧
        rec'.pageNum = rec.pageNum ∧ rec'.needsOCR = rec.needsOCR ∧
        (rec.pageNum ≠ res.1 → rec' = rec) := by
  intro pts
  induction pts with
  | nil => intro res i rec h; simp at h
  | cons p rest ih =>
      intro res i rec h
      unfold applyOCRResult
      by_cases hp : p.pageNum = res.1
      · rw [if_pos hp]
        cases i with
        | zero =>
            simp only [List.getElem?_cons_zero, Option.some.injEq] at h
            subst h
            exact ⟨{ p with text := res.2, ocrApplied := true }, by simp,
              rfl, rfl, fun hne => absurd hp hne⟩
        | succ j =>
            simp only [List.getElem?_cons_succ] at h ⊢
            exact ⟨rec, h, rfl, rfl, fun _ => rfl⟩
      · rw [if_neg hp]
        cases i with
        | zero =>
            simp only [List.getElem?_cons_zero, Option.some.injEq] at h
            subst h
            exact ⟨p, by simp, rfl, rfl, fun _ => rfl⟩
        | succ j =>
            simp only [List.getElem?_cons_succ] at h ⊢
            exact ih res j rec h

/-- Relation between the post-merge page list and the first-round list:
lengths agree, page numbers and `needsOCR` flags are untouched, and pages
not marked for OCR keep their text-layer text. -/
def MergeInv (firstRound pts : List PageRecord) : Prop :=
  pts.length = firstRound.length ∧
  ∀ (i : ℕ) (rec : PageRecord), pts[i]? = some rec →
    ∃ rec₀, firstRound[i]? = some rec₀ ∧ rec.pageNum = rec₀.pageNum ∧
      rec.needsOCR = rec₀.needsOCR ∧
      (rec₀.needsOCR = false → rec.text = rec₀.text)

theorem foldl_applyOCRResult_inv (pages : List PdfPage) (thr : ℕ) :
    ∀ (rs : List (ℕ × String)) (pts : List PageRecord),
      (∀ r ∈ rs, r.1 ∈ ((hybridFirstRound pages thr).filter
        (fun p => p.needsOCR)).map (fun p => p.pageNum)) →
      MergeInv (hybridFirstRound pages thr) pts →
      MergeInv (hybridFirstRound pages thr)
        (rs.foldl applyOCRResult pts) := by
  intro rs
  induction rs with
  | nil => intro pts _ h; exact h
  | cons res rest ih =>
      intro pts hmem hInv
      obtain ⟨hlen, hinv⟩ := hInv
      refine ih (applyOCRResult pts res)
        (fun r hr => hmem r (List.mem_cons_of_mem _ hr)) ⟨?_, ?_⟩
      · rw [applyOCRResult_length, hlen]
      · intro i rec h
        have hi : i < pts.length := by
          obtain ⟨hlt, -⟩ := List.getElem?_eq_some.mp h
          rwa [applyOCRResult_length] at hlt
        have hpts : pts[i]? = some pts[i] := List.getElem?_eq_getElem hi
        obtain ⟨rec₁, hrec₁, hnum₁, hocr₁, htext₁⟩ :=
          applyOCRResult_pointwise pts res i pts[i] hpts
        rw [hrec₁] at h
        injection h with h
        subst h
        obtain ⟨rec₀, hrec₀, hnum₀, hocr₀, htext₀⟩ := hinv i pts[i] hpts
        refine ⟨rec₀, hrec₀, hnum₁.trans hnum₀, hocr₁.trans hocr₀, ?_⟩
        intro hfalse
        have hne : pts[i].pageNum ≠ res.1 := by
          intro hc
          have hres := hmem res (List.mem_cons_self _ _)
          rcases List.mem_map.mp hres with ⟨rec₂, hrec₂, hnum₂⟩
          rcases List.mem_filter.mp hrec₂ with ⟨hrec₂mem, hrec₂needs⟩
          obtain ⟨j, hjlt, hj⟩ := List.getElem_of_mem hrec₂mem
          have hj2 : (hybridFirstRound pages thr)[j]? = some rec₂ := by
            rw [List.getElem?_eq_getElem hjlt, hj]
          have h1 := hybridFirstRound_pageNum pages thr i rec₀ hrec₀
          have h2 := hybridFirstRound_pageNum pages thr j rec₂ hj2
          have hij : i = j := by omega
          subst hij
          rw [hrec₀] at hj2
          injection hj2 with he
          rw [← he] at hrec₂needs
          rw [hfalse] at hrec₂needs
          exact Bool.noConfusion hrec₂needs
        rw [htext₁ hne]
        exact htext₀ hfalse

theorem hybridPageTexts_mergeInv (pages : List PdfPage) (hasGroqKey : Bool)
    (ocr : ℕ → String) (thr maxOCR : ℕ) :
    MergeInv (hybridFirstRound pages thr)
      (hybridPageTexts pages hasGroqKey ocr thr maxOCR) := by
  unfold hybridPageTexts
  dsimp only
  split
  · apply foldl_applyOCRResult_inv
    · intro r hr
      rcases List.mem_map.mp hr with ⟨n, hn, rfl⟩
      exact List.mem_of_mem_take hn
    · exact ⟨rfl, fun i rec h => ⟨rec, h, rfl, rfl, fun _ => rfl⟩⟩
  · exact ⟨rfl, fun i rec h => ⟨rec, h, rfl, rfl, fun _ => rfl⟩⟩

/-- **C7** — In hybrid extraction a page is marked for OCR exactly when its
trimmed text-layer length is strictly below the OCR threshold; a page at or
above the threshold keeps its text-layer content; `textLayerPages` counts
the pages not marked for OCR and `ocrPages` counts the pages to which OCR
was applied. -/
theorem C7_hybridParsePDF (pages : List PdfPage) (hasGroqKey : Bool)
    (ocr : ℕ → String) (thr maxOCR : ℕ) :
    (hybridParsePDF pages hasGroqKey ocr thr maxOCR).pageTexts.length =
        pages.length ∧
      (∀ i p, pages[i]? = some p →
        ∃ rec,
          (hybridParsePDF pages hasGroqKey ocr thr maxOCR).pageTexts[i]? =
              some rec ∧
            rec.pageNum = i + 1 ∧
            (rec.needsOCR = true ↔ (pageTextLayer p).length < thr) ∧
            (rec.needsOCR = false → rec.text = pageTextLayer p)) ∧
      (hybridParsePDF pages hasGroqKey ocr thr maxOCR).stats.totalPages =
        pages.length ∧
      (hybridParsePDF pages hasGroqKey ocr thr maxOCR).stats.textLayerPages =
        ((hybridParsePDF pages hasGroqKey ocr thr maxOCR).pageTexts.filter
          (fun q => !q.needsOCR)).length ∧
      (hybridParsePDF pages hasGroqKey ocr thr maxOCR).stats.ocrPages =
        ((hybridParsePDF pages hasGroqKey ocr thr maxOCR).pageTexts.filter
          (fun q => q.ocrApplied)).length := by
  obtain ⟨hlen, hinv⟩ := hybridPageTexts_mergeInv pages hasGroqKey ocr thr maxOCR
  have hPT : (hybridParsePDF pages hasGroqKey ocr thr maxOCR).pageTexts =
      hybridPageTexts pages hasGroqKey ocr thr maxOCR := rfl
  refine ⟨?_, ?_, rfl, rfl, rfl⟩
  · rw [hPT, hlen, hybridFirstRound_length]
  · intro i p hp
    have hi : i < pages.length := (List.getElem?_eq_some.mp hp).1
    have hi2 : i < (hybridPageTexts pages hasGroqKey ocr thr maxOCR).length := by
      rw [hlen, hybridFirstRound_length]; exact hi
    have hsome : (hybridPageTexts pages hasGroqKey ocr thr maxOCR)[i]? =
        some (hybridPageTexts pages hasGroqKey ocr thr maxOCR)[i] :=
      List.getElem?_eq_getElem hi2
    obtain ⟨rec₀, hrec₀, hnum, hocr2, htext⟩ := hinv i _ hsome
    have hFRi : (hybridFirstRound pages thr)[i]? = some (
        if (pageTextLayer p).length < thr then ⟨i + 1, "", true, false⟩
        else ⟨i + 1, pageTextLayer p, false, false⟩) := by
      rw [hybridFirstRound_getElem, hp]
      rfl
    rw [hFRi] at hrec₀
    injection hrec₀ with he
    refine ⟨(hybridPageTexts pages hasGroqKey ocr thr maxOCR)[i],
      by rw [hPT]; exact hsome, ?_, ?_, ?_⟩
    · by_cases hcond : (pageTextLayer p).length < thr
      · rw [hnum, ← he, if_pos hcond]
      · rw [hnum, ← he, if_neg hcond]
    · by_cases hcond : (pageTextLayer p).length < thr
      · rw [hocr2, ← he, if_pos hcond]
        simp [hcond]
      · rw [hocr2, ← he, if_neg hcond]
        simp [hcond]
    · intro hfalse
      by_cases hcond : (pageTextLayer p).length < thr
      · rw [hocr2, ← he, if_pos hcond] at hfalse
        exact Bool.noConfusion hfalse
      · have := htext (by rw [← he, if_neg hcond])
        rw [this, ← he, if_neg hcond]

/-- A 1000-character text page (the spec's text-PDF scenario). -/
def c7Page : PdfPage := ⟨[String.mk (List.replicate 1000 'a')], 1⟩

def c7Pages : List PdfPage := [c7Page, c7Page, c7Page]

set_option maxRecDepth 100000 in
/-- **C7 (witness)** — a 3-page text PDF with 1000 characters per page at
`ocrThreshold = 100` yields `textLayerPages = 3` and `ocrPages = 0`, and its
first page is not marked for OCR. -/
theorem C7_witness :
    (hybridParsePDF c7Pages true (fun _ => "ocr") 100 999).stats.textLayerPages = 3 ∧
      (hybridParsePDF c7Pages true (fun _ => "ocr") 100 999).stats.ocrPages = 0 ∧
      (∃ rec,
        (hybridParsePDF c7Pages true (fun _ => "ocr") 100 999).pageTexts[0]? =
            some rec ∧
          rec.needsOCR = false) := by
  obtain ⟨hlen, hpt, htot, htl, hocr⟩ :=
    C7_hybridParsePDF c7Pages true (fun _ => "ocr") 100 999
  refine ⟨?_, ?_, ?_⟩
  · rw [htl]; decide
  · rw [hocr]; decide
  · obtain ⟨rec, hrec, -, hiff, -⟩ := hpt 0 c7Page rfl
    refine ⟨rec, hrec, ?_⟩
    have hbig : ¬ (pageTextLayer c7Page).length < 100 := by decide
    cases hno : rec.needsOCR
    · rfl
    · exact absurd (hiff.mp hno) hbig
